import Mathlib

/-!
Shallow embedding of the model-version lifecycle component of
`src/Pathways/W14D3/Advanced/production_ml_system.py`:
the `ModelManager` (train / deploy / predict / performance query),
the `MLMonitor` and the `ProductionMLSystem` orchestrator.

Conventions of the embedding:
* Timestamps are naturals, in milliseconds; ISO-8601 strings compare
  lexicographically in timestamp order, so string comparison in SQL is
  modelled by numeric comparison.
* `strftime("%Y%m%d_%H%M%S")` keeps a timestamp at second resolution and is
  injective on distinct seconds, so a version identifier is modelled as the
  millisecond timestamp truncated to seconds (`versionOf`).
* A loaded sklearn model is opaque: it is a prediction function together
  with an optional `feature_importances_` vector.
* Files on disk are an association list from version identifier to blob;
  a present blob that fails to load (`joblib.load` / `json.load` raising)
  is `none`, a loadable blob is `some`.
* Python exceptions become `Except` errors; methods that catch exceptions
  and return a boolean are modelled as returning `Bool` together with the
  state at the point the exception was caught (mutations made before the
  raise are kept, as in the source).
-/

namespace ProdML

/-- The `status` column of the `model_versions` table. -/
inductive Status where
  | trained
  | active
  | inactive
deriving DecidableEq, Repr

/-- An in-memory fitted model (`joblib.load` result): an opaque predictor
plus the optional `feature_importances_` attribute. -/
structure MLModel where
  predictFn : List ℚ → ℚ
  importances : Option (List ℚ)

/-- The metadata dictionary written to `metadata_{version}.json` by
`train_new_model` and loaded by `deploy_model`. -/
structure Metadata where
  version : Nat
  createdAt : Nat
  r2 : ℚ
  rmse : ℚ
  trainingSamples : Nat
deriving DecidableEq, Repr

/-- A row of the `model_versions` table. -/
structure ModelVersionRow where
  version : Nat
  createdAt : Nat
  r2 : ℚ
  rmse : ℚ
  trainingSamples : Nat
  status : Status
deriving DecidableEq, Repr

/-- A row of the `predictions` table (`log_prediction` insert). -/
structure PredictionRow where
  timestamp : Nat
  modelVersion : Option Nat
  features : List ℚ
  prediction : ℚ
  confidence : ℚ
deriving DecidableEq, Repr

/-- The models directory: `model_{v}.pkl` and `metadata_{v}.json` files,
keyed by version. A key that is absent models a missing file; a key mapped
to `none` models a file whose load raises. -/
structure FileSystem where
  modelFiles : List (Nat × Option MLModel)
  metaFiles : List (Nat × Option Metadata)

/-- Association-list lookup (first binding wins). -/
def assoc {β : Type} : List (Nat × β) → Nat → Option β
  | [], _ => none
  | (k, b) :: l, v => if k = v then some b else assoc l v

/-- Association-list overwrite-or-append (models writing a file). -/
def assocSet {β : Type} : List (Nat × β) → Nat → β → List (Nat × β)
  | [], v, b => [(v, b)]
  | (k, b0) :: l, v, b => if k = v then (v, b) :: l else (k, b0) :: assocSet l v b

/-- The mutable fields of `ModelManager` together with its database tables. -/
structure ManagerState where
  currentModel : Option MLModel
  currentVersion : Option Nat
  modelMetadata : Option Metadata
  versions : List ModelVersionRow
  predictions : List PredictionRow

/-- State of `ModelManager` plus the models directory it reads and writes. -/
structure SysState where
  fs : FileSystem
  mgr : ManagerState

/-- Fresh `ModelManager` over an empty models directory and empty tables. -/
def initState : SysState :=
  { fs := { modelFiles := [], metaFiles := [] }
    mgr := { currentModel := none, currentVersion := none, modelMetadata := none
             versions := [], predictions := [] } }

/-- Embeds `version = datetime.now().strftime("%Y%m%d_%H%M%S")`: the identifier
determined by a millisecond timestamp, at second resolution. -/
def versionOf (timeMs : Nat) : Nat := timeMs / 1000

/-- One of the two `UPDATE model_versions SET status = ...` statements of
`deploy_model`: set `status` on every row satisfying the predicate. -/
def updStatus (rows : List ModelVersionRow) (p : ModelVersionRow → Bool)
    (st : Status) : List ModelVersionRow :=
  rows.map fun r => if p r then { r with status := st } else r

/-- The database effect of `deploy_model`: first
`SET status = 'active' WHERE version = v`, then
`SET status = 'inactive' WHERE version != v`. -/
def deployDbUpdate (rows : List ModelVersionRow) (v : Nat) :
    List ModelVersionRow :=
  updStatus (updStatus rows (fun r => r.version = v) .active)
    (fun r => ¬ r.version = v) .inactive

/-- Embeds `ModelManager.deploy_model(version)`. Returns the boolean result and the
state when the method returns; on an exception caught by the
`except` clause, mutations already performed are kept. -/
def deployExec (s : SysState) (v : Nat) : Bool × SysState :=
  match assoc s.fs.modelFiles v, assoc s.fs.metaFiles v with
  | some mblob, some dblob =>
    match mblob with
    | none => (false, s)
    | some m =>
      let s1 : SysState := { s with mgr := { s.mgr with currentModel := some m } }
      match dblob with
      | none => (false, s1)
      | some md =>
        (true, { s1 with mgr := { s1.mgr with
                  modelMetadata := some md
                  currentVersion := some v
                  versions := deployDbUpdate s1.mgr.versions v } })
  | _, _ => (false, s)

/-- Error raised by the sqlite `INSERT` when the primary key collides. -/
inductive DbErr where
  | duplicateVersion
deriving DecidableEq, Repr

/-- The inputs of one `train_new_model` call, abstracting the fit: the wall
clock at entry, the fitted model, its test-split metrics, and the training
sample count. -/
structure TrainInput where
  timeMs : Nat
  model : MLModel
  r2 : ℚ
  rmse : ℚ
  nSamples : Nat

/-- Embeds `ModelManager.train_new_model`: dumps the model and metadata files,
then inserts the `model_versions` row. The insert raises
on a duplicate version identifier after the files were already
(over)written, as in the source. -/
def trainExec (s : SysState) (inp : TrainInput) : Except DbErr Nat × SysState :=
  let v := versionOf inp.timeMs
  let md : Metadata :=
    { version := v, createdAt := inp.timeMs, r2 := inp.r2, rmse := inp.rmse
      trainingSamples := inp.nSamples }
  let fs' : FileSystem :=
    { modelFiles := assocSet s.fs.modelFiles v (some inp.model)
      metaFiles := assocSet s.fs.metaFiles v (some md) }
  if v ∈ s.mgr.versions.map (·.version) then
    (.error .duplicateVersion, { s with fs := fs' })
  else
    (.ok v,
      { fs := fs'
        mgr := { s.mgr with versions := s.mgr.versions ++
                  [{ version := v, createdAt := inp.timeMs, r2 := inp.r2
                     rmse := inp.rmse, trainingSamples := inp.nSamples
                     status := .trained }] } })

/-- The confidence heuristic of `ModelManager.predict`: mean of
`feature_importances_` when the attribute exists, else the 0.8 default. -/
def confidenceOf (m : MLModel) : ℚ :=
  match m.importances with
  | some l => l.sum / l.length
  | none => 4 / 5

/-- The `ValueError("No model deployed")` raised by `predict`. -/
inductive PredictErr where
  | noModelDeployed
deriving DecidableEq, Repr

/-- The dictionary returned by `ModelManager.predict`. -/
structure PredResult where
  prediction : ℚ
  confidence : ℚ
  modelVersion : Option Nat
  timestamp : Nat
deriving DecidableEq, Repr

/-- Embeds `ModelManager.predict(features, log_prediction)`: raises when no model
is loaded, otherwise computes prediction and confidence, optionally logs a
`predictions` row, and returns the result dictionary. -/
def predictExec (s : SysState) (features : List ℚ) (nowMs : Nat)
    (logPrediction : Bool) : Except PredictErr (PredResult × SysState) :=
  match s.mgr.currentModel with
  | none => .error .noModelDeployed
  | some m =>
    let p := m.predictFn features
    let c := confidenceOf m
    let res : PredResult :=
      { prediction := p, confidence := c
        modelVersion := s.mgr.currentVersion, timestamp := nowMs }
    let row : PredictionRow :=
      { timestamp := nowMs, modelVersion := s.mgr.currentVersion
        features := features, prediction := p, confidence := c }
    if logPrediction then
      .ok (res, { s with mgr := { s.mgr with
                   predictions := s.mgr.predictions ++ [row] } })
    else
      .ok (res, s)

/-- One day in milliseconds (`timedelta(days=1)`). -/
def dayMs : Nat := 86400000

/-- The `WHERE timestamp > cutoff` test of `get_model_performance`, with
`cutoff = now - days` as a signed quantity. -/
def inWindow (nowMs : Nat) (days : Nat) (r : PredictionRow) : Bool :=
  (nowMs : ℤ) - (days : ℤ) * (dayMs : ℤ) < (r.timestamp : ℤ)

/-- One element of the `models` list returned by `get_model_performance`. -/
structure PerfEntry where
  version : Option Nat
  predictionCount : Nat
  avgConfidence : ℚ
deriving DecidableEq, Repr

/-- The dictionary returned by `get_model_performance`. -/
structure Perf where
  periodDays : Nat
  models : List PerfEntry
  totalPredictions : Nat
deriving DecidableEq, Repr

/-- Embeds `ModelManager.get_model_performance(days)`: the SQL
`SELECT COUNT(*), AVG(confidence), model_version FROM predictions WHERE
timestamp > cutoff GROUP BY model_version`, followed by the Python loop
summing the counts. -/
def getModelPerformance (s : SysState) (days : Nat) (nowMs : Nat) : Perf :=
  let rows := s.mgr.predictions.filter (inWindow nowMs days)
  let groups := (rows.map (·.modelVersion)).dedup
  let models := groups.map fun v =>
    let g := rows.filter fun r => r.modelVersion = v
    { version := v, predictionCount := g.length
      avgConfidence := (g.map (·.confidence)).sum / (g.length : ℚ) : PerfEntry }
  { periodDays := days, models := models
    totalPredictions := (models.map (·.predictionCount)).sum }

/-- State of `MLMonitor`: the `monitoring` flag together with the number of
`threading.Thread(target=_monitor_loop)` threads spawned so far (each
spawned thread is one periodic health-check loop). -/
structure MonitorState where
  monitoring : Bool
  loopsStarted : Nat
deriving DecidableEq, Repr

/-- Embeds `MLMonitor.start_monitoring`: sets the flag and unconditionally spawns
one more monitor thread. -/
def startMonitoring (m : MonitorState) : MonitorState :=
  { monitoring := true, loopsStarted := m.loopsStarted + 1 }

/-- Embeds `MLMonitor.stop_monitoring`: clears the flag. -/
def stopMonitoring (m : MonitorState) : MonitorState :=
  { m with monitoring := false }

/-- State of `ProductionMLSystem`: the manager with its files and tables, the
fitted scaler, the `is_initialized` flag and the monitor. -/
structure OrchState where
  sys : SysState
  scaler : List ℚ → List ℚ
  isInitialized : Bool
  monitor : MonitorState

/-- Errors surfaced by `ProductionMLSystem.predict_house_price`:
`RuntimeError` before initialization, or the error of `predict`. -/
inductive OrchErr where
  | notInitialized
  | predictFailed (e : PredictErr)
deriving DecidableEq, Repr

/-- The dictionary returned by `predict_house_price`: the (possibly
clamped) prediction result plus the human-readable `input` echo. -/
structure HouseResult where
  prediction : ℚ
  confidence : ℚ
  modelVersion : Option Nat
  timestamp : Nat
  inputSize : ℚ
  inputBedrooms : ℚ
  inputAge : ℚ
deriving DecidableEq, Repr

/-- Embeds `ProductionMLSystem.predict_house_price(size, bedrooms, age)`: checks
initialization, scales the features, delegates to `predict`, then clamps a
negative prediction to the 50000 floor and halves the confidence. -/
def predictHousePrice (o : OrchState) (size bedrooms age : ℚ) (nowMs : Nat) :
    Except OrchErr (HouseResult × OrchState) :=
  if o.isInitialized then
    let features := o.scaler [size, bedrooms, age]
    match predictExec o.sys features nowMs true with
    | .error e => .error (.predictFailed e)
    | .ok (res, sys') =>
      let res' :=
        if res.prediction < 0 then
          { res with prediction := 50000, confidence := res.confidence * (1/2) }
        else res
      .ok ({ prediction := res'.prediction, confidence := res'.confidence
             modelVersion := res'.modelVersion, timestamp := res'.timestamp
             inputSize := size, inputBedrooms := bedrooms, inputAge := age },
           { o with sys := sys' })
  else .error .notInitialized

/-- Errors of `_should_deploy_new_model`: `open` on a missing metadata file
raises `FileNotFoundError`, `json.load` on a bad file raises; neither is
caught there. -/
inductive LoadErr where
  | fileNotFound
  | loadFailed
deriving DecidableEq, Repr

/-- Embeds `ProductionMLSystem._should_deploy_new_model(new_version)`: deploy when
there is no current version; otherwise read the new version's metadata and
require `new_r2 > current_r2 + 0.02`, where `current_r2` is
`model_metadata.get('r2_score', 0)`. -/
def shouldDeployNewModel (s : SysState) (newV : Nat) : Except LoadErr Bool :=
  match s.mgr.currentVersion with
  | none => .ok true
  | some _ =>
    match assoc s.fs.metaFiles newV with
    | none => .error .fileNotFound
    | some none => .error .loadFailed
    | some (some md) =>
      let currentR2 := (s.mgr.modelMetadata.map (·.r2)).getD 0
      .ok (decide (md.r2 > currentR2 + 2 / 100))

/-- Errors escaping `ProductionMLSystem.retrain_model`. -/
inductive RetrainErr where
  | dbFailed (e : DbErr)
  | loadFailed (e : LoadErr)
deriving DecidableEq, Repr

/-- Embeds `ProductionMLSystem.retrain_model`: trains a new version, auto-deploys
it when `_should_deploy_new_model` says so (ignoring `deploy_model`'s
boolean result), and returns the new version identifier either way. -/
def retrainExec (o : OrchState) (inp : TrainInput) :
    Except RetrainErr Nat × OrchState :=
  match trainExec o.sys inp with
  | (.error e, sys1) => (.error (.dbFailed e), { o with sys := sys1 })
  | (.ok newV, sys1) =>
    match shouldDeployNewModel sys1 newV with
    | .error e => (.error (.loadFailed e), { o with sys := sys1 })
    | .ok true => (.ok newV, { o with sys := (deployExec sys1 newV).2 })
    | .ok false => (.ok newV, { o with sys := sys1 })

/-- States reachable from a fresh manager by any sequence of
`train_new_model`, `deploy_model` and `predict` calls, whatever their
outcomes. -/
inductive Reach : SysState → Prop where
  | init : Reach initState
  | train (s : SysState) (inp : TrainInput) : Reach s → Reach (trainExec s inp).2
  | deploy (s : SysState) (v : Nat) : Reach s → Reach (deployExec s v).2
  | predict (s : SysState) (feats : List ℚ) (nowMs : Nat) (lg : Bool)
      (r : PredResult) (s' : SysState) :
      Reach s → predictExec s feats nowMs lg = .ok (r, s') → Reach s'

/-- The rows of the `model_versions` table whose status is `active`. -/
def activeRows (rows : List ModelVersionRow) : List ModelVersionRow :=
  rows.filter fun r => r.status = .active

/-- Invariant maintained by the manager lifecycle: the manager only writes
loadable files, every version with a model file has a `model_versions` row,
the primary key is duplicate-free, and at most one row is `active`. -/
structure Inv (s : SysState) : Prop where
  goodModelFiles : ∀ p ∈ s.fs.modelFiles, p.2 ≠ none
  goodMetaFiles : ∀ p ∈ s.fs.metaFiles, p.2 ≠ none
  filesRecorded : ∀ v, assoc s.fs.modelFiles v ≠ none →
    v ∈ s.mgr.versions.map (·.version)
  nodupVersions : (s.mgr.versions.map (·.version)).Nodup
  atMostOneActive : (activeRows s.mgr.versions).length ≤ 1

theorem assoc_mem {β : Type} {l : List (Nat × β)} {v : Nat} {b : β}
    (h : assoc l v = some b) : (v, b) ∈ l := by
  induction l with
  | nil => simp [assoc] at h
  | cons p l ih =>
    obtain ⟨k, b0⟩ := p
    by_cases hk : k = v
    · subst hk
      have hb : b0 = b := by simpa [assoc] using h
      subst hb
      exact List.mem_cons_self _ _
    · simp only [assoc, if_neg hk] at h
      exact List.mem_cons_of_mem _ (ih h)

theorem assoc_assocSet_self {β : Type} (l : List (Nat × β)) (v : Nat) (b : β) :
    assoc (assocSet l v b) v = some b := by
  induction l with
  | nil => simp [assoc, assocSet]
  | cons p l ih =>
    obtain ⟨k, b0⟩ := p
    by_cases hk : k = v
    · simp [assocSet, hk, assoc]
    · simp [assocSet, hk, assoc, ih]

theorem assoc_assocSet_ne {β : Type} (l : List (Nat × β)) (v w : Nat) (b : β)
    (h : w ≠ v) : assoc (assocSet l v b) w = assoc l w := by
  induction l with
  | nil => simp [assoc, assocSet, Ne.symm h]
  | cons p l ih =>
    obtain ⟨k, b0⟩ := p
    by_cases hk : k = v
    · subst hk
      simp [assocSet, assoc, Ne.symm h]
    · simp only [assocSet, if_neg hk, assoc]
      by_cases hw : k = w <;> simp [hw, ih]

theorem mem_assocSet {β : Type} {l : List (Nat × β)} {v : Nat} {b : β}
    {p : Nat × β} (h : p ∈ assocSet l v b) : p = (v, b) ∨ p ∈ l := by
  induction l with
  | nil => simpa [assocSet] using h
  | cons q l ih =>
    obtain ⟨k, b0⟩ := q
    by_cases hk : k = v
    · subst hk
      simp [assocSet] at h
      rcases h with h1 | h1
      · exact .inl h1
      · exact .inr (List.mem_cons_of_mem _ h1)
    · simp only [assocSet, if_neg hk, List.mem_cons] at h
      rcases h with h1 | h1
      · exact .inr (h1 ▸ List.mem_cons_self _ _)
      · rcases ih h1 with h2 | h2
        · exact .inl h2
        · exact .inr (List.mem_cons_of_mem _ h2)

theorem deployDbUpdate_eq_map (rows : List ModelVersionRow) (v : Nat) :
    deployDbUpdate rows v = rows.map fun r =>
      if r.version = v then { r with status := .active }
      else { r with status := .inactive } := by
  unfold deployDbUpdate updStatus
  rw [List.map_map]
  apply List.map_congr_left
  intro r _
  by_cases h : r.version = v <;> simp [Function.comp, h]

theorem versions_deployDbUpdate (rows : List ModelVersionRow) (v : Nat) :
    (deployDbUpdate rows v).map (·.version) = rows.map (·.version) := by
  rw [deployDbUpdate_eq_map, List.map_map]
  apply List.map_congr_left
  intro r _
  by_cases h : r.version = v <;> simp [Function.comp, h]

theorem activeRows_deployDbUpdate (rows : List ModelVersionRow) (v : Nat) :
    (activeRows (deployDbUpdate rows v)).length =
      (rows.map (·.version)).count v := by
  rw [deployDbUpdate_eq_map]
  unfold activeRows
  rw [List.filter_map, List.length_map, ← List.countP_eq_length_filter,
    List.count, List.countP_map]
  apply List.countP_congr
  intro r _
  by_cases h : r.version = v <;> simp [Function.comp, h]

theorem activeRows_append (r1 r2 : List ModelVersionRow) :
    activeRows (r1 ++ r2) = activeRows r1 ++ activeRows r2 :=
  List.filter_append ..

theorem deploy_true_cases {s : SysState} {v : Nat} {s' : SysState}
    (h : deployExec s v = (true, s')) :
    ∃ m md, assoc s.fs.modelFiles v = some (some m) ∧
      assoc s.fs.metaFiles v = some (some md) ∧
      s' = { s with mgr := { s.mgr with
              currentModel := some m
              currentVersion := some v
              modelMetadata := some md
              versions := deployDbUpdate s.mgr.versions v } } := by
  unfold deployExec at h
  cases hm : assoc s.fs.modelFiles v with
  | none => rw [hm] at h; cases hd : assoc s.fs.metaFiles v <;> simp [hd] at h
  | some mblob =>
    rw [hm] at h
    cases hd : assoc s.fs.metaFiles v with
    | none => simp [hd] at h
    | some dblob =>
      rw [hd] at h
      cases mblob with
      | none => simp at h
      | some m =>
        cases dblob with
        | none => simp at h
        | some md =>
          simp only [Prod.mk.injEq] at h
          exact ⟨m, md, rfl, rfl, h.2.symm⟩

theorem deploy_false_cases {s : SysState} {v : Nat} {s' : SysState}
    (h : deployExec s v = (false, s')) :
    s'.fs = s.fs ∧
    s'.mgr.currentVersion = s.mgr.currentVersion ∧
    s'.mgr.modelMetadata = s.mgr.modelMetadata ∧
    s'.mgr.versions = s.mgr.versions ∧
    s'.mgr.predictions = s.mgr.predictions ∧
    (s'.mgr.currentModel = s.mgr.currentModel ∨
      ∃ m, assoc s.fs.modelFiles v = some (some m) ∧
        assoc s.fs.metaFiles v = some none ∧
        s'.mgr.currentModel = some m) := by
  unfold deployExec at h
  cases hm : assoc s.fs.modelFiles v with
  | none =>
    rw [hm] at h
    cases hd : assoc s.fs.metaFiles v <;> simp [hd] at h <;>
      simp [← h, true_or]
  | some mblob =>
    rw [hm] at h
    cases hd : assoc s.fs.metaFiles v with
    | none =>
      simp [hd] at h
      simp [← h]
    | some dblob =>
      rw [hd] at h
      cases mblob with
      | none =>
        simp only [Prod.mk.injEq] at h
        simp [← h.2]
      | some m =>
        cases dblob with
        | none =>
          simp only [Prod.mk.injEq] at h
          refine ⟨by rw [← h.2], by rw [← h.2], by rw [← h.2], by rw [← h.2],
            by rw [← h.2], .inr ⟨m, rfl, rfl, by rw [← h.2]⟩⟩
        | some md => simp at h

theorem predict_ok_state {s : SysState} {feats : List ℚ} {nowMs : Nat}
    {lg : Bool} {r : PredResult} {s' : SysState}
    (h : predictExec s feats nowMs lg = .ok (r, s')) :
    s'.fs = s.fs ∧ s'.mgr.currentModel = s.mgr.currentModel ∧
    s'.mgr.currentVersion = s.mgr.currentVersion ∧
    s'.mgr.modelMetadata = s.mgr.modelMetadata ∧
    s'.mgr.versions = s.mgr.versions := by
  unfold predictExec at h
  cases hcm : s.mgr.currentModel with
  | none => rw [hcm] at h; simp at h
  | some m =>
    rw [hcm] at h
    cases lg with
    | false =>
      simp at h
      obtain ⟨-, hs⟩ := h
      subst hs
      simp [hcm]
    | true =>
      simp at h
      obtain ⟨-, hs⟩ := h
      subst hs
      simp [hcm]

theorem inv_init : Inv initState := by
  constructor <;> simp [initState, assoc, activeRows]

theorem inv_train (s : SysState) (inp : TrainInput) (h : Inv s) :
    Inv (trainExec s inp).2 := by
  unfold trainExec
  by_cases hv : versionOf inp.timeMs ∈ s.mgr.versions.map (·.version)
  · simp only [hv, if_pos, if_true]
    constructor
    · intro p hp
      rcases mem_assocSet hp with h1 | h1
      · simp [h1]
      · exact h.goodModelFiles p h1
    · intro p hp
      rcases mem_assocSet hp with h1 | h1
      · simp [h1]
      · exact h.goodMetaFiles p h1
    · intro w hw
      by_cases hwv : w = versionOf inp.timeMs
      · subst hwv; exact hv
      · rw [assoc_assocSet_ne _ _ _ _ hwv] at hw
        exact h.filesRecorded w hw
    · exact h.nodupVersions
    · exact h.atMostOneActive
  · simp only [hv, if_neg, if_false]
    constructor
    · intro p hp
      rcases mem_assocSet hp with h1 | h1
      · simp [h1]
      · exact h.goodModelFiles p h1
    · intro p hp
      rcases mem_assocSet hp with h1 | h1
      · simp [h1]
      · exact h.goodMetaFiles p h1
    · intro w hw
      by_cases hwv : w = versionOf inp.timeMs
      · subst hwv
        rw [List.map_append]
        exact List.mem_append_right _ (by simp)
      · rw [assoc_assocSet_ne _ _ _ _ hwv] at hw
        rw [List.map_append]
        exact List.mem_append_left _ (h.filesRecorded w hw)
    · rw [List.map_append, List.nodup_append]
      refine ⟨h.nodupVersions, List.nodup_singleton _, ?_⟩
      intro a ha hb
      simp only [List.map_cons, List.map_nil, List.mem_singleton] at hb
      exact hv (hb ▸ ha)
    · simpa [activeRows_append, activeRows] using h.atMostOneActive

theorem inv_deploy (s : SysState) (v : Nat) (h : Inv s) :
    Inv (deployExec s v).2 := by
  cases hres : (deployExec s v).1 with
  | false =>
    have hd := @deploy_false_cases s v (deployExec s v).2 (by rw [← hres])
    obtain ⟨hfs, _, _, hver, _, _⟩ := hd
    exact ⟨by rw [hfs]; exact h.goodModelFiles, by rw [hfs]; exact h.goodMetaFiles,
      by rw [hfs, hver]; exact h.filesRecorded, by rw [hver]; exact h.nodupVersions,
      by rw [hver]; exact h.atMostOneActive⟩
  | true =>
    obtain ⟨m, md, hm, _, hs'⟩ :=
      @deploy_true_cases s v (deployExec s v).2 (by rw [← hres])
    rw [hs']
    refine ⟨h.goodModelFiles, h.goodMetaFiles, ?_, ?_, ?_⟩
    · simpa [versions_deployDbUpdate] using h.filesRecorded
    · simpa [versions_deployDbUpdate] using h.nodupVersions
    · rw [activeRows_deployDbUpdate]
      exact List.nodup_iff_count_le_one.mp h.nodupVersions v

theorem inv_predict {s : SysState} {feats : List ℚ} {nowMs : Nat} {lg : Bool}
    {r : PredResult} {s' : SysState} (h : Inv s)
    (hp : predictExec s feats nowMs lg = .ok (r, s')) : Inv s' := by
  obtain ⟨hfs, _, _, _, hver⟩ := predict_ok_state hp
  exact ⟨by rw [hfs]; exact h.goodModelFiles, by rw [hfs]; exact h.goodMetaFiles,
    by rw [hfs, hver]; exact h.filesRecorded, by rw [hver]; exact h.nodupVersions,
    by rw [hver]; exact h.atMostOneActive⟩

theorem reach_inv {s : SysState} (h : Reach s) : Inv s := by
  induction h with
  | init => exact inv_init
  | train s inp _ ih => exact inv_train s inp ih
  | deploy s v _ ih => exact inv_deploy s v ih
  | predict s feats nowMs lg r s' _ hp ih => exact inv_predict ih hp

/-- A fitted model used in concrete scenarios: its importances sum to 1. -/
def demoModel : MLModel :=
  { predictFn := fun _ => 250000, importances := some [1/2, 1/4, 1/4] }

/-- A fitted model returning a constant prediction whose importances are
all zero (a forest with no splits), so its confidence heuristic is 0. -/
def constModel (q : ℚ) : MLModel :=
  { predictFn := fun _ => q, importances := some [0, 0, 0] }

/-- A `train_new_model` call at 5.2 seconds past the epoch. -/
def demoTrain : TrainInput :=
  { timeMs := 5200, model := demoModel, r2 := 9/10, rmse := 1, nSamples := 100 }

/-- The state after one training call on a fresh manager. -/
def sTrained : SysState := (trainExec initState demoTrain).2

/-- The state after training once and deploying the trained version. -/
def sDeployed : SysState := (deployExec sTrained 5).2

/-- C1: in every reachable state at most one `model_versions` row is
`active`, and immediately after every successful `deploy_model(v)` exactly
one row is `active`, namely the row of `v`, the most recently deployed
version. -/
theorem single_active_after_deploy (s : SysState) (h : Reach s) :
    (activeRows s.mgr.versions).length ≤ 1 ∧
    ∀ v s', deployExec s v = (true, s') →
      (activeRows s'.mgr.versions).length = 1 ∧
      ∀ r ∈ s'.mgr.versions, (r.status = .active ↔ r.version = v) := by
  have hInv := reach_inv h
  refine ⟨hInv.atMostOneActive, ?_⟩
  intro v s' hdep
  obtain ⟨m, md, hm, hd, hs'⟩ := deploy_true_cases hdep
  have hvmem : v ∈ s.mgr.versions.map (·.version) :=
    hInv.filesRecorded v (by simp [hm])
  constructor
  · rw [hs']
    show (activeRows (deployDbUpdate s.mgr.versions v)).length = 1
    rw [activeRows_deployDbUpdate]
    exact List.count_eq_one_of_mem hInv.nodupVersions hvmem
  · rw [hs']
    intro r hr
    show r.status = .active ↔ r.version = v
    rw [show ({ s with mgr := { s.mgr with
          currentModel := some m
          currentVersion := some v
          modelMetadata := some md
          versions := deployDbUpdate s.mgr.versions v } } : SysState).mgr.versions
        = deployDbUpdate s.mgr.versions v from rfl, deployDbUpdate_eq_map] at hr
    obtain ⟨r0, _, hr0eq⟩ := List.mem_map.mp hr
    by_cases h0 : r0.version = v
    · rw [← hr0eq]; simp [h0]
    · rw [← hr0eq]; simp [h0]

/-- Witness for C1: a fresh manager trains version 5 and deploys it; the
deployed state has exactly one active row, the row of version 5. -/
theorem single_active_after_deploy_witness :
    (activeRows sDeployed.mgr.versions).length = 1 ∧
    ∀ r ∈ sDeployed.mgr.versions, (r.status = .active ↔ r.version = 5) :=
  (single_active_after_deploy sTrained
    (Reach.train initState demoTrain Reach.init)).2 5 sDeployed rfl

/-- A recorded version (id 3) that was trained but never deployed. -/
def rowA : ModelVersionRow :=
  { version := 3, createdAt := 3000, r2 := 1/2, rmse := 2
    trainingSamples := 50, status := .trained }

/-- A second recorded version (id 7), also merely trained. -/
def rowB : ModelVersionRow :=
  { version := 7, createdAt := 7000, r2 := 3/4, rmse := 1
    trainingSamples := 60, status := .trained }

/-- Metadata on disk for version 7. -/
def meta7 : Metadata :=
  { version := 7, createdAt := 7000, r2 := 3/4, rmse := 1, trainingSamples := 60 }

/-- A manager state holding two trained versions, 3 and 7, with loadable
files for version 7. -/
def twoTrainedState : SysState :=
  { fs := { modelFiles := [(7, some demoModel)], metaFiles := [(7, some meta7)] }
    mgr := { currentModel := none, currentVersion := none, modelMetadata := none
             versions := [rowA, rowB], predictions := [] } }

/-- C7 counterexample: version 3 is `trained` and never deployed, the
deploy of version 7 succeeds, and afterwards no row of version 3 is
`trained` any more — deploy demoted it to `inactive`, contradicting the
claim that other versions' statuses are unchanged. -/
theorem deploy_frame_counterexample :
    rowA ∈ twoTrainedState.mgr.versions ∧ rowA.status = .trained ∧
    (deployExec twoTrainedState 7).1 = true ∧
    (deployExec twoTrainedState 7).2.mgr.versions =
      [{ rowA with status := .inactive }, { rowB with status := .active }] := by
  refine ⟨by simp [twoTrainedState], rfl, rfl, rfl⟩

/-- C7 amended: a successful `deploy_model(v)` rewrites the status of
EVERY recorded row — the row of `v` becomes `active` and every other row
becomes `inactive` whatever its previous status (in particular a `trained`
never-deployed version is demoted to `inactive`); non-status fields are
unchanged. -/
theorem deploy_rewrites_all_statuses (s : SysState) (v : Nat) (s' : SysState)
    (h : deployExec s v = (true, s')) :
    s'.mgr.versions = s.mgr.versions.map fun r =>
      if r.version = v then { r with status := .active }
      else { r with status := .inactive } := by
  obtain ⟨m, md, _, _, hs'⟩ := deploy_true_cases h
  rw [hs']
  exact deployDbUpdate_eq_map ..

/-- Witness for C7 amended, on the two-version state: after deploying
version 7, row 3 is `inactive` and row 7 is `active`. -/
theorem deploy_rewrites_all_statuses_witness :
    (deployExec twoTrainedState 7).2.mgr.versions =
      twoTrainedState.mgr.versions.map fun r =>
        if r.version = 7 then { r with status := .active }
        else { r with status := .inactive } :=
  deploy_rewrites_all_statuses twoTrainedState 7 (deployExec twoTrainedState 7).2 rfl

/-- C8 counterexample: with the monitor already running (flag set, one
loop spawned), `start_monitoring` spawns a second monitor loop instead of
being a no-op. -/
theorem start_monitoring_not_idempotent :
    (⟨true, 1⟩ : MonitorState).monitoring = true ∧
    (startMonitoring ⟨true, 1⟩).loopsStarted ≠
      (⟨true, 1⟩ : MonitorState).loopsStarted := by
  decide

/-- C8 amended: every `start_monitoring` call sets the state to running
and spawns one additional periodic health-check loop, even when already
running; after `n` calls, `n` additional loops have been spawned. -/
theorem start_monitoring_spawns (m : MonitorState) (n : Nat) :
    (startMonitoring^[n] m).loopsStarted = m.loopsStarted + n ∧
    (0 < n → (startMonitoring^[n] m).monitoring = true) := by
  induction n with
  | zero => simp
  | succ k ih =>
    rw [Function.iterate_succ_apply']
    exact ⟨by rw [startMonitoring, ih.1, Nat.add_assoc], fun _ => rfl⟩

/-- Witness for C8 amended: two `start_monitoring` calls on an
already-running monitor having one loop result in three spawned loops. -/
theorem start_monitoring_spawns_witness :
    (startMonitoring^[2] (⟨true, 1⟩ : MonitorState)).loopsStarted = 1 + 2 ∧
    (startMonitoring^[2] (⟨true, 1⟩ : MonitorState)).monitoring = true :=
  ⟨(start_monitoring_spawns ⟨true, 1⟩ 2).1,
   (start_monitoring_spawns ⟨true, 1⟩ 2).2 (by decide)⟩

/-- A state whose model file for version 5 loads but whose metadata file
for version 5 is present yet unparsable, while version 3 is deployed. -/
def corruptMetaState : SysState :=
  { fs := { modelFiles := [(5, some demoModel)], metaFiles := [(5, none)] }
    mgr := { currentModel := some (constModel 100), currentVersion := some 3
             modelMetadata := none, versions := [], predictions := [] } }

/-- C2 counterexample: deploying version 5 fails (its metadata file does
not load), yet the previously active in-memory model has been replaced by
the freshly loaded parameters — the failed deploy is not all-or-nothing. -/
theorem deploy_not_all_or_nothing :
    (deployExec corruptMetaState 5).1 = false ∧
    (deployExec corruptMetaState 5).2.mgr.currentModel ≠
      corruptMetaState.mgr.currentModel := by
  refine ⟨rfl, ?_⟩
  intro h
  have h2 : demoModel = constModel 100 := by
    have h1 : (deployExec corruptMetaState 5).2.mgr.currentModel
        = some demoModel := rfl
    rw [h1] at h
    exact Option.some.inj h
  have h3 := congrArg (fun m => m.predictFn []) h2
  simp only [demoModel, constModel] at h3
  norm_num at h3

/-- C2 amended: a failed `deploy_model` returns `False` (it raises
nothing) and leaves files, store statuses, `current_version`,
`model_metadata` and the prediction log unchanged; the in-memory model is
also unchanged EXCEPT when the version's parameters load successfully and
its metadata file then fails to load, in which case the in-memory model
has already been replaced by the newly loaded parameters. -/
theorem deploy_failure_behavior (s : SysState) (v : Nat) (s' : SysState)
    (h : deployExec s v = (false, s')) :
    s'.fs = s.fs ∧
    s'.mgr.currentVersion = s.mgr.currentVersion ∧
    s'.mgr.modelMetadata = s.mgr.modelMetadata ∧
    s'.mgr.versions = s.mgr.versions ∧
    s'.mgr.predictions = s.mgr.predictions ∧
    (s'.mgr.currentModel = s.mgr.currentModel ∨
      ∃ m, assoc s.fs.modelFiles v = some (some m) ∧
        assoc s.fs.metaFiles v = some none ∧
        s'.mgr.currentModel = some m) :=
  deploy_false_cases h

/-- Witness for C2 amended: deploying a version with no files on a fresh
manager fails and changes nothing. -/
theorem deploy_failure_behavior_witness :
    (deployExec initState 5).2.fs = initState.fs ∧
    (deployExec initState 5).2.mgr.currentVersion =
      initState.mgr.currentVersion ∧
    (deployExec initState 5).2.mgr.modelMetadata =
      initState.mgr.modelMetadata ∧
    (deployExec initState 5).2.mgr.versions = initState.mgr.versions ∧
    (deployExec initState 5).2.mgr.predictions =
      initState.mgr.predictions ∧
    ((deployExec initState 5).2.mgr.currentModel =
        initState.mgr.currentModel ∨
      ∃ m, assoc initState.fs.modelFiles 5 = some (some m) ∧
        assoc initState.fs.metaFiles 5 = some none ∧
        (deployExec initState 5).2.mgr.currentModel = some m) :=
  deploy_failure_behavior initState 5 (deployExec initState 5).2 rfl

/-- A training call at a given wall-clock time, with fixed fit results. -/
def trainAt (ms : Nat) : TrainInput :=
  { timeMs := ms, model := demoModel, r2 := 9/10, rmse := 1, nSamples := 100 }

/-- A sequence of `train_new_model` calls, collecting each call's result. -/
def runTrains : SysState → List TrainInput → List (Except DbErr Nat) × SysState
  | s, [] => ([], s)
  | s, inp :: rest =>
    let res := trainExec s inp
    let rest' := runTrains res.2 rest
    (res.1 :: rest'.1, rest'.2)

theorem trainExec_fresh (s : SysState) (inp : TrainInput)
    (h : versionOf inp.timeMs ∉ s.mgr.versions.map (·.version)) :
    trainExec s inp = (.ok (versionOf inp.timeMs),
      { fs := { modelFiles := assocSet s.fs.modelFiles (versionOf inp.timeMs)
                  (some inp.model)
                metaFiles := assocSet s.fs.metaFiles (versionOf inp.timeMs)
                  (some { version := versionOf inp.timeMs
                          createdAt := inp.timeMs, r2 := inp.r2
                          rmse := inp.rmse, trainingSamples := inp.nSamples }) }
        mgr := { s.mgr with versions := s.mgr.versions ++
                  [{ version := versionOf inp.timeMs, createdAt := inp.timeMs
                     r2 := inp.r2, rmse := inp.rmse
                     trainingSamples := inp.nSamples, status := .trained }] } }) := by
  simp [trainExec, h]

/-- C9 counterexample: two training calls 500 ms apart fall in the same
second of wall-clock time, so `strftime("%Y%m%d_%H%M%S")` derives the SAME
version identifier for both, and the second insert into `model_versions`
hits the duplicate-primary-key branch — it is reachable, not unreachable. -/
theorem duplicate_version_counterexample :
    versionOf 5200 = versionOf 5700 ∧
    (trainExec (trainExec initState (trainAt 5200)).2 (trainAt 5700)).1 =
      .error .duplicateVersion :=
  ⟨rfl, rfl⟩

/-- C9 amended: version identifiers are monotone in creation time, and
they are pairwise distinct — so the duplicate-version branch is
unreachable — only for training calls that fall in pairwise distinct
seconds; at second granularity, every insert of such a sequence succeeds. -/
theorem timestamp_ids_monotone_and_distinct :
    (∀ t1 t2 : Nat, t1 ≤ t2 → versionOf t1 ≤ versionOf t2) ∧
    ∀ (l : List TrainInput) (s : SysState),
      (∀ inp ∈ l, versionOf inp.timeMs ∉ s.mgr.versions.map (·.version)) →
      l.Pairwise (fun a b => a.timeMs / 1000 ≠ b.timeMs / 1000) →
      ∀ r ∈ (runTrains s l).1, ∃ k, r = .ok k := by
  constructor
  · intro t1 t2 h
    exact Nat.div_le_div_right h
  · intro l
    induction l with
    | nil =>
      intro s _ _ r hr
      simp [runTrains] at hr
    | cons inp rest ih =>
      intro s hfresh hpair r hr
      have hv : versionOf inp.timeMs ∉ s.mgr.versions.map (·.version) :=
        hfresh inp (List.mem_cons_self ..)
      have htr := trainExec_fresh s inp hv
      simp only [runTrains, List.mem_cons] at hr
      rcases hr with hr | hr
      · subst hr
        exact ⟨versionOf inp.timeMs, by rw [htr]⟩
      · refine ih (trainExec s inp).2 ?_ (List.pairwise_cons.mp hpair).2 r hr
        intro inp' hmem
        rw [htr]
        simp only [List.map_append]
        intro hcon
        rcases List.mem_append.mp hcon with hcon | hcon
        · exact hfresh inp' (List.mem_cons_of_mem _ hmem) hcon
        · simp only [List.map_cons, List.map_nil, List.mem_singleton] at hcon
          exact (List.pairwise_cons.mp hpair).1 inp' hmem hcon.symm

/-- Witness for C9 amended: training at 5.2 s and 6.1 s (distinct
seconds) from a fresh manager; the second result is an `ok`. -/
theorem timestamp_ids_witness : ∃ k, (Except.ok 6 : Except DbErr Nat) = .ok k :=
  timestamp_ids_monotone_and_distinct.2 [trainAt 5200, trainAt 6100] initState
    (by intro inp _; simp [initState])
    (by
      refine List.Pairwise.cons (fun b hb => ?_) (List.pairwise_singleton ..)
      rw [List.mem_singleton] at hb
      subst hb
      decide)
    (.ok 6) (List.mem_cons_of_mem _ (List.mem_cons_self ..))

/-- C3: when a version is deployed (so `current_version` is set and the
loaded metadata carries its R²), `retrain_model` returns the new version
identifier in every case; it does NOT deploy when the new R² is at most
current R² + 0.02 — the new row stays `trained` and the deployed model,
version and metadata are untouched — and it deploys exactly when the new
R² strictly exceeds current R² + 0.02. -/
theorem retrain_margin_policy (o : OrchState) (inp : TrainInput) (cv : Nat)
    (md : Metadata)
    (hcv : o.sys.mgr.currentVersion = some cv)
    (hmd : o.sys.mgr.modelMetadata = some md)
    (hfresh : versionOf inp.timeMs ∉ o.sys.mgr.versions.map (·.version)) :
    (retrainExec o inp).1 = .ok (versionOf inp.timeMs) ∧
    (inp.r2 ≤ md.r2 + 2 / 100 →
      (retrainExec o inp).2.sys.mgr.currentVersion = some cv ∧
      (retrainExec o inp).2.sys.mgr.currentModel = o.sys.mgr.currentModel ∧
      (retrainExec o inp).2.sys.mgr.modelMetadata = some md ∧
      (retrainExec o inp).2.sys.mgr.versions = o.sys.mgr.versions ++
        [{ version := versionOf inp.timeMs, createdAt := inp.timeMs
           r2 := inp.r2, rmse := inp.rmse, trainingSamples := inp.nSamples
           status := .trained }]) ∧
    (md.r2 + 2 / 100 < inp.r2 →
      (retrainExec o inp).2.sys =
        (deployExec (trainExec o.sys inp).2 (versionOf inp.timeMs)).2) := by
  have htr := trainExec_fresh o.sys inp hfresh
  refine ⟨?_, fun hle => ?_, fun hlt => ?_⟩
  · rcases lt_or_le (md.r2 + 2 / 100) inp.r2 with hlt | hle
    · simp [retrainExec, htr, shouldDeployNewModel, hcv, hmd,
        assoc_assocSet_self, hlt]
    · simp [retrainExec, htr, shouldDeployNewModel, hcv, hmd,
        assoc_assocSet_self, not_lt.mpr hle]
  · simp [retrainExec, htr, shouldDeployNewModel, hcv, hmd,
      assoc_assocSet_self, not_lt.mpr hle]
  · simp [retrainExec, htr, shouldDeployNewModel, hcv, hmd,
      assoc_assocSet_self, hlt]

/-- The orchestrator sitting on the trained-and-deployed manager state. -/
def deployedOrch : OrchState :=
  { sys := sDeployed, scaler := id, isInitialized := true
    monitor := { monitoring := true, loopsStarted := 1 } }

/-- A retraining whose fit lands exactly on the improvement boundary:
new R² = current R² + 0.02. -/
def boundaryTrain : TrainInput :=
  { timeMs := 8000, model := demoModel, r2 := 9/10 + 2/100, rmse := 1
    nSamples := 100 }

/-- Witness for C3 at the boundary: retraining with R² exactly equal to
current R² + 0.02 returns the new id 8, leaves version 5 deployed, and
appends the new row with status `trained`. -/
theorem retrain_margin_policy_witness :
    (retrainExec deployedOrch boundaryTrain).1 = .ok 8 ∧
    (retrainExec deployedOrch boundaryTrain).2.sys.mgr.currentVersion = some 5 ∧
    (retrainExec deployedOrch boundaryTrain).2.sys.mgr.versions =
      deployedOrch.sys.mgr.versions ++
        [{ version := 8, createdAt := 8000, r2 := 9/10 + 2/100, rmse := 1
           trainingSamples := 100, status := .trained }] := by
  have h := retrain_margin_policy deployedOrch boundaryTrain 5
    { version := 5, createdAt := 5200, r2 := 9/10, rmse := 1
      trainingSamples := 100 }
    rfl rfl (by decide)
  exact ⟨h.1, (h.2.1 (by norm_num [boundaryTrain])).1,
    (h.2.1 (by norm_num [boundaryTrain])).2.2.2⟩

/-- C4: with the system initialized and a model loaded, every
`predict_house_price` call succeeds; when the raw model prediction is
negative the returned prediction is the 50000 floor and the returned
confidence is exactly half the model's raw confidence, and when the raw
prediction is non-negative both are returned unmodified. -/
theorem clamp_negative_predictions (o : OrchState) (size bedrooms age : ℚ)
    (nowMs : Nat) (m : MLModel)
    (hinit : o.isInitialized = true)
    (hm : o.sys.mgr.currentModel = some m) :
    ∃ res o', predictHousePrice o size bedrooms age nowMs = .ok (res, o') ∧
      (m.predictFn (o.scaler [size, bedrooms, age]) < 0 →
        res.prediction = 50000 ∧
        res.confidence = confidenceOf m * (1 / 2)) ∧
      (0 ≤ m.predictFn (o.scaler [size, bedrooms, age]) →
        res.prediction = m.predictFn (o.scaler [size, bedrooms, age]) ∧
        res.confidence = confidenceOf m) := by
  simp only [predictHousePrice, hinit, if_true, predictExec, hm]
  by_cases hneg : m.predictFn (o.scaler [size, bedrooms, age]) < 0
  · simp only [hneg, if_true, if_pos]
    exact ⟨_, _, rfl, fun _ => ⟨rfl, rfl⟩, fun hge => absurd hneg (not_lt.mpr hge)⟩
  · simp only [hneg, if_false, if_neg, not_false_iff]
    exact ⟨_, _, rfl, fun hlt => hlt.elim, fun _ => ⟨rfl, rfl⟩⟩

/-- An initialized orchestrator whose loaded model always predicts a
negative price and has all-zero feature importances. -/
def negOrch : OrchState :=
  { sys := { fs := { modelFiles := [], metaFiles := [] }
             mgr := { currentModel := some (constModel (-5))
                      currentVersion := some 5, modelMetadata := none
                      versions := [], predictions := [] } }
    scaler := id, isInitialized := true
    monitor := { monitoring := false, loopsStarted := 0 } }

/-- Witness for C4 on the negative-predicting model. -/
theorem clamp_negative_predictions_witness :
    ∃ res o', predictHousePrice negOrch 1 2 3 0 = .ok (res, o') ∧
      ((constModel (-5)).predictFn (negOrch.scaler [1, 2, 3]) < 0 →
        res.prediction = 50000 ∧
        res.confidence = confidenceOf (constModel (-5)) * (1 / 2)) ∧
      (0 ≤ (constModel (-5)).predictFn (negOrch.scaler [1, 2, 3]) →
        res.prediction = (constModel (-5)).predictFn (negOrch.scaler [1, 2, 3]) ∧
        res.confidence = confidenceOf (constModel (-5))) :=
  clamp_negative_predictions negOrch 1 2 3 0 (constModel (-5)) rfl rfl

/-- States reachable from a fresh manager while NO deploy ever succeeded:
training, failed deploys and prediction attempts only. -/
inductive ReachND : SysState → Prop where
  | init : ReachND initState
  | train (s : SysState) (inp : TrainInput) : ReachND s → ReachND (trainExec s inp).2
  | deployFail (s : SysState) (v : Nat) : ReachND s →
      (deployExec s v).1 = false → ReachND (deployExec s v).2
  | predict (s : SysState) (feats : List ℚ) (nowMs : Nat) (lg : Bool)
      (r : PredResult) (s' : SysState) :
      ReachND s → predictExec s feats nowMs lg = .ok (r, s') → ReachND s'

/-- States reachable from a given state by further train / deploy /
predict calls. -/
inductive ReachFrom : SysState → SysState → Prop where
  | refl (s : SysState) : ReachFrom s s
  | train (s0 s : SysState) (inp : TrainInput) :
      ReachFrom s0 s → ReachFrom s0 (trainExec s inp).2
  | deploy (s0 s : SysState) (v : Nat) :
      ReachFrom s0 s → ReachFrom s0 (deployExec s v).2
  | predict (s0 s : SysState) (feats : List ℚ) (nowMs : Nat) (lg : Bool)
      (r : PredResult) (s' : SysState) :
      ReachFrom s0 s → predictExec s feats nowMs lg = .ok (r, s') →
      ReachFrom s0 s'

theorem reachND_reach {s : SysState} (h : ReachND s) : Reach s := by
  induction h with
  | init => exact .init
  | train s inp _ ih => exact .train s inp ih
  | deployFail s v _ _ ih => exact .deploy s v ih
  | predict s feats nowMs lg r s' _ hp ih => exact .predict s feats nowMs lg r s' ih hp

theorem trainExec_mgr_frame (s : SysState) (inp : TrainInput) :
    (trainExec s inp).2.mgr.currentModel = s.mgr.currentModel ∧
    (trainExec s inp).2.mgr.currentVersion = s.mgr.currentVersion ∧
    (trainExec s inp).2.mgr.modelMetadata = s.mgr.modelMetadata ∧
    (trainExec s inp).2.mgr.predictions = s.mgr.predictions := by
  unfold trainExec
  by_cases hv : versionOf inp.timeMs ∈ s.mgr.versions.map (·.version) <;>
    simp [hv]

theorem deploy_fail_good_files {s : SysState} {v : Nat}
    (hg1 : ∀ p ∈ s.fs.modelFiles, p.2 ≠ none)
    (hg2 : ∀ p ∈ s.fs.metaFiles, p.2 ≠ none)
    (hf : (deployExec s v).1 = false) : (deployExec s v).2 = s := by
  unfold deployExec at hf ⊢
  cases hm : assoc s.fs.modelFiles v with
  | none =>
    cases hd : assoc s.fs.metaFiles v <;> simp [hm, hd]
  | some mblob =>
    cases hd : assoc s.fs.metaFiles v with
    | none => simp [hm, hd]
    | some dblob =>
      have h1 : mblob ≠ none := hg1 (v, mblob) (assoc_mem hm)
      have h2 : dblob ≠ none := hg2 (v, dblob) (assoc_mem hd)
      cases mblob with
      | none => exact absurd rfl h1
      | some m =>
        cases dblob with
        | none => exact absurd rfl h2
        | some md => rw [hm, hd] at hf; simp at hf

theorem reachND_noModel {s : SysState} (h : ReachND s) :
    s.mgr.currentModel = none := by
  induction h with
  | init => rfl
  | train s inp _ ih => rw [(trainExec_mgr_frame s inp).1]; exact ih
  | deployFail s v hr hf ih =>
    have hInv := reach_inv (reachND_reach hr)
    rw [deploy_fail_good_files hInv.goodModelFiles hInv.goodMetaFiles hf]
    exact ih
  | predict s feats nowMs lg r s' hr hp ih =>
    unfold predictExec at hp
    rw [ih] at hp
    cases hp

theorem reachFrom_model_stays {s0 s : SysState}
    (h0 : s0.mgr.currentModel ≠ none) (h : ReachFrom s0 s) :
    s.mgr.currentModel ≠ none := by
  induction h with
  | refl => exact h0
  | train s inp _ ih => rw [(trainExec_mgr_frame s inp).1]; exact ih
  | deploy s v _ ih =>
    cases hres : (deployExec s v).1 with
    | true =>
      obtain ⟨m, md, _, _, hs'⟩ :=
        @deploy_true_cases s v (deployExec s v).2 (by rw [← hres])
      rw [hs']
      simp
    | false =>
      obtain ⟨_, _, _, _, _, hcm⟩ :=
        @deploy_false_cases s v (deployExec s v).2 (by rw [← hres])
      rcases hcm with hcm | ⟨m, _, _, hcm⟩ <;> rw [hcm]
      · exact ih
      · simp
  | predict s feats nowMs lg r s' _ hp ih =>
    rw [(predict_ok_state hp).2.1]
    exact ih

/-- C5: before any successful deploy, every `predict` call raises
`ValueError("No model deployed")` (the spec's `NoActiveModelError`); from
any state reached after at least one successful deploy, every `predict`
call succeeds and returns a record carrying a prediction, a confidence,
the manager's current version identifier, and the call's timestamp. -/
theorem predict_requires_deploy :
    (∀ s feats nowMs lg, ReachND s →
      predictExec s feats nowMs lg = .error .noModelDeployed) ∧
    (∀ s0 v s1 s, deployExec s0 v = (true, s1) → ReachFrom s1 s →
      ∀ feats nowMs lg, ∃ res s',
        predictExec s feats nowMs lg = .ok (res, s') ∧
        res.modelVersion = s.mgr.currentVersion ∧ res.timestamp = nowMs) := by
  constructor
  · intro s feats nowMs lg h
    unfold predictExec
    rw [reachND_noModel h]
  · intro s0 v s1 s hdep hrf feats nowMs lg
    have h1 : s1.mgr.currentModel ≠ none := by
      obtain ⟨m, md, _, _, hs'⟩ := deploy_true_cases hdep
      rw [hs']
      simp
    have h2 := reachFrom_model_stays h1 hrf
    obtain ⟨m, hm⟩ := Option.ne_none_iff_exists'.mp h2
    unfold predictExec
    rw [hm]
    cases lg <;> exact ⟨_, _, rfl, rfl, rfl⟩

/-- Witness for C5: on a fresh manager `predict` raises; after training
and deploying version 5, `predict` succeeds and reports version and
timestamp. -/
theorem predict_requires_deploy_witness :
    predictExec initState [] 0 true = .error .noModelDeployed ∧
    ∃ res s', predictExec sDeployed [1, 2, 3] 7 true = .ok (res, s') ∧
      res.modelVersion = sDeployed.mgr.currentVersion ∧ res.timestamp = 7 :=
  ⟨predict_requires_deploy.1 initState [] 0 true ReachND.init,
   predict_requires_deploy.2 sTrained 5 sDeployed sDeployed rfl
     (ReachFrom.refl sDeployed) [1, 2, 3] 7 true⟩

/-- Specification-side characterization used to state C6: the prediction
rows of version `v` whose timestamp is strictly later than `now` minus
`days` days. Compared against what `get_model_performance` computes. -/
def windowRecords (s : SysState) (days nowMs : Nat) (v : Option Nat) :
    List PredictionRow :=
  s.mgr.predictions.filter fun r =>
    r.modelVersion = v ∧ (nowMs : ℤ) - (days : ℤ) * (dayMs : ℤ) < (r.timestamp : ℤ)

theorem filter_version_window (s : SysState) (days nowMs : Nat)
    (v : Option Nat) :
    (s.mgr.predictions.filter (inWindow nowMs days)).filter
      (fun r => r.modelVersion = v) = windowRecords s days nowMs v := by
  rw [List.filter_filter]
  apply List.filter_congr
  intro r _
  simp [windowRecords, inWindow]

theorem getModelPerformance_models (s : SysState) (days nowMs : Nat) :
    (getModelPerformance s days nowMs).models =
      ((s.mgr.predictions.filter (inWindow nowMs days)).map
        (·.modelVersion)).dedup.map fun v =>
          { version := v
            predictionCount := ((s.mgr.predictions.filter
              (inWindow nowMs days)).filter
                fun r => r.modelVersion = v).length
            avgConfidence := (((s.mgr.predictions.filter
              (inWindow nowMs days)).filter
                (fun r => r.modelVersion = v)).map (·.confidence)).sum /
              (((s.mgr.predictions.filter (inWindow nowMs days)).filter
                (fun r => r.modelVersion = v)).length : ℚ) } := rfl

/-- C6: `get_model_performance(days)` reports each version at most once;
a version is reported iff it has a prediction row strictly inside the
trailing window; each reported count and mean confidence are those of
exactly the rows of that version strictly inside the window; and a row
timestamped exactly `days` days before now is outside the window. -/
theorem performance_window (s : SysState) (days nowMs : Nat) :
    ((getModelPerformance s days nowMs).models.map (·.version)).Nodup ∧
    (∀ v : Option Nat,
      (∃ e ∈ (getModelPerformance s days nowMs).models, e.version = v) ↔
        windowRecords s days nowMs v ≠ []) ∧
    (∀ e ∈ (getModelPerformance s days nowMs).models,
      e.predictionCount = (windowRecords s days nowMs e.version).length ∧
      e.avgConfidence =
        ((windowRecords s days nowMs e.version).map (·.confidence)).sum /
          ((windowRecords s days nowMs e.version).length : ℚ)) ∧
    (∀ r : PredictionRow,
      (r.timestamp : ℤ) = (nowMs : ℤ) - (days : ℤ) * (dayMs : ℤ) →
        inWindow nowMs days r = false) := by
  refine ⟨?_, ?_, ?_, ?_⟩
  · rw [getModelPerformance_models, List.map_map]
    exact (List.nodup_dedup _).map fun a b hab => hab
  · intro v
    rw [getModelPerformance_models]
    constructor
    · rintro ⟨e, he, hv⟩
      obtain ⟨v0, hv0, hbuild⟩ := List.mem_map.mp he
      have hv0v : v0 = v := by rw [← hv, ← hbuild]
      subst hv0v
      have hmem : v0 ∈ (s.mgr.predictions.filter (inWindow nowMs days)).map
          (·.modelVersion) := List.mem_dedup.mp hv0
      obtain ⟨r, hr, hrv⟩ := List.mem_map.mp hmem
      have h2 := List.mem_filter.mp hr
      intro hempty
      have : r ∈ windowRecords s days nowMs v0 := by
        rw [← filter_version_window]
        exact List.mem_filter.mpr ⟨hr, by simp [hrv]⟩
      rw [hempty] at this
      cases this
    · intro hne
      obtain ⟨r, hr⟩ := List.exists_mem_of_ne_nil _ hne
      rw [← filter_version_window] at hr
      have h1 := List.mem_filter.mp hr
      have hrv : r.modelVersion = v := by simpa using h1.2
      exact ⟨_, List.mem_map_of_mem _ (List.mem_dedup.mpr
        (List.mem_map.mpr ⟨r, h1.1, hrv⟩)), rfl⟩
  · intro e he
    rw [getModelPerformance_models] at he
    obtain ⟨v0, _, hbuild⟩ := List.mem_map.mp he
    rw [← hbuild]
    simp only
    rw [filter_version_window]
    exact ⟨rfl, rfl⟩
  · intro r hr
    simp [inWindow, hr]

/-- A manager state with two logged predictions for version 5: one
exactly one day before "now = dayMs + 1000", one strictly inside the
trailing day. -/
def perfState : SysState :=
  { fs := { modelFiles := [], metaFiles := [] }
    mgr := { currentModel := none, currentVersion := none, modelMetadata := none
             versions := []
             predictions :=
               [{ timestamp := 1000, modelVersion := some 5, features := []
                  prediction := 10, confidence := 1/2 },
                { timestamp := 2000, modelVersion := some 5, features := []
                  prediction := 20, confidence := 1/4 }] } }

/-- Witness for C6: querying one trailing day at `now = dayMs + 1000`
counts only the strictly-inside record, and the record timestamped exactly
one day ago is outside the window. -/
theorem performance_window_witness :
    (∃ e ∈ (getModelPerformance perfState 1 (dayMs + 1000)).models,
      e.predictionCount =
        (windowRecords perfState 1 (dayMs + 1000) e.version).length) ∧
    inWindow (dayMs + 1000) 1
      { timestamp := 1000, modelVersion := some 5, features := []
        prediction := 10, confidence := 1/2 } = false :=
  ⟨⟨_, List.mem_cons_self _ _,
      ((performance_window perfState 1 (dayMs + 1000)).2.2.1 _
        (List.mem_cons_self _ _)).1⟩,
   (performance_window perfState 1 (dayMs + 1000)).2.2.2
      { timestamp := 1000, modelVersion := some 5, features := []
        prediction := 10, confidence := 1/2 } (by decide)⟩

/-- C10 amended: when the raw prediction is negative, the row logged by
`predict` carries the raw negative prediction and the raw (unhalved)
confidence — logging happens inside `predict`, before the orchestrator
clamps — so the logged prediction always differs from the returned floor,
and the logged confidence differs from the returned halved confidence
whenever the raw confidence is nonzero. -/
theorem raw_values_logged (o : OrchState) (size bedrooms age : ℚ)
    (nowMs : Nat) (m : MLModel)
    (hinit : o.isInitialized = true)
    (hm : o.sys.mgr.currentModel = some m)
    (hneg : m.predictFn (o.scaler [size, bedrooms, age]) < 0) :
    ∃ res o', predictHousePrice o size bedrooms age nowMs = .ok (res, o') ∧
      o'.sys.mgr.predictions = o.sys.mgr.predictions ++
        [{ timestamp := nowMs, modelVersion := o.sys.mgr.currentVersion
           features := o.scaler [size, bedrooms, age]
           prediction := m.predictFn (o.scaler [size, bedrooms, age])
           confidence := confidenceOf m }] ∧
      res.prediction = 50000 ∧
      res.confidence = confidenceOf m * (1 / 2) ∧
      m.predictFn (o.scaler [size, bedrooms, age]) ≠ res.prediction ∧
      (confidenceOf m ≠ 0 → confidenceOf m ≠ res.confidence) := by
  simp only [predictHousePrice, hinit, if_true, predictExec, hm]
  simp only [hneg, if_true]
  refine ⟨_, _, rfl, rfl, rfl, rfl, ?_, ?_⟩
  · intro hcon
    rw [hcon] at hneg
    norm_num at hneg
  · intro hc hcon
    have h1 : confidenceOf m * 1 = confidenceOf m * (1 / 2) := by
      rw [mul_one]
      exact hcon
    have h2 := mul_left_cancel₀ hc h1
    norm_num at h2

/-- C10 counterexample: with all-zero feature importances the raw
confidence is 0; the prediction is clamped to the floor but the logged
confidence (0) EQUALS the halved confidence returned to the caller (0),
so the logged and returned confidences do not differ. -/
theorem logged_confidence_counterexample :
    ∃ res o', predictHousePrice negOrch 1 2 3 0 = .ok (res, o') ∧
      res.prediction = 50000 ∧
      o'.sys.mgr.predictions.map (·.confidence) = [res.confidence] := by
  refine ⟨_, _, rfl, rfl, ?_⟩
  norm_num [negOrch, confidenceOf, constModel]

/-- Witness for C10 amended, on the negative-predicting model. -/
theorem raw_values_logged_witness :
    ∃ res o', predictHousePrice negOrch 1 2 3 0 = .ok (res, o') ∧
      o'.sys.mgr.predictions = negOrch.sys.mgr.predictions ++
        [{ timestamp := 0, modelVersion := negOrch.sys.mgr.currentVersion
           features := negOrch.scaler [1, 2, 3]
           prediction := (constModel (-5)).predictFn (negOrch.scaler [1, 2, 3])
           confidence := confidenceOf (constModel (-5)) }] ∧
      res.prediction = 50000 ∧
      res.confidence = confidenceOf (constModel (-5)) * (1 / 2) ∧
      (constModel (-5)).predictFn (negOrch.scaler [1, 2, 3]) ≠ res.prediction ∧
      (confidenceOf (constModel (-5)) ≠ 0 →
        confidenceOf (constModel (-5)) ≠ res.confidence) :=
  raw_values_logged negOrch 1 2 3 0 (constModel (-5)) rfl rfl
    (by norm_num [constModel, negOrch])

end ProdML
